import Mathlib

/-!
Shallow embedding of the `util` crypto toolkit (Go).

The repository's own functions (`GenerateKeyPair`, `PrivateKeyToBytes`,
`BytesToPrivateKey`, `PublicKeyToBytes`, `BytesToPublicKey`,
`EncryptWithPublicKey`, `DecryptWithPrivateKey`, `CreateHash`,
`EncryptAES`, `DecryptAES`, `SignSignature`, `VerifySignature`) are
translated line by line from the source.  The Go standard-library
primitives they call (SHA-256, AES-GCM, PEM, PKCS1/PKCS8/PKIX codecs,
RSA-OAEP, RSA PKCS1v15 signatures) are not part of the repository; they
are modelled here as executable symbolic (Dolev-Yao style) primitives
that satisfy exactly their documented contracts: hashing is an injective
fixed-length digest, AEAD sealing appends a 16-entry tag that matches on
open iff key, nonce and sealed body all match, PEM/DER codecs are
injective self-delimiting serializers.

Go `string` and `[]byte` values are both modelled as `List Nat`
(a Go string is a byte sequence).  Go's multiple-return `(value, error)`
convention, together with the run-time panics the source can trigger
(nil-pointer dereference after `pem.Decode`, out-of-range slicing,
explicit `panic(...)` calls), is modelled by the `GoResult` type: a call
either returns `ok`, returns a typed `err`, or `crash`es the process.
-/

set_option maxRecDepth 100000

/-- Error taxonomy used by the spec; each Go error value returned by the
source is mapped to the corresponding constructor. -/
inductive CryptoErr where
  | keyGenError
  | malformedKey
  | unsupportedKeyType
  | unknownContainerType
  | typeMismatch
  | payloadTooLarge
  | decryptionFailed
  | authenticationFailed
  | inputTooShort
  | verificationFailed
  | incorrectPassword
  | invalidKeySize
deriving DecidableEq

/-- Outcome of a Go call: a value, a typed error, or a run-time panic
(process abort), with the panic message. -/
inductive GoResult (α : Type) where
  | ok (a : α)
  | err (e : CryptoErr)
  | crash (msg : String)
deriving DecidableEq

def GoResult.bind {α β : Type} : GoResult α → (α → GoResult β) → GoResult β
  | .ok a, f => f a
  | .err e, _ => .err e
  | .crash m, _ => .crash m

def GoResult.map {α β : Type} (f : α → β) : GoResult α → GoResult β
  | .ok a => .ok (f a)
  | .err e => .err e
  | .crash m => .crash m

/-- Binary digits of `n`, least significant first, with explicit fuel so
that the recursion is structural (the fuel `n` itself always suffices). -/
def bitsF : Nat → Nat → List Nat
  | 0, _ => []
  | _, 0 => []
  | f + 1, n + 1 => ((n + 1) % 2) :: bitsF f ((n + 1) / 2)

def bits (n : Nat) : List Nat := bitsF n n

def unbits : List Nat → Nat
  | [] => 0
  | d :: ds => d + 2 * unbits ds

theorem unbits_bitsF : ∀ f n, n ≤ f → unbits (bitsF f n) = n := by
  intro f
  induction f with
  | zero => intro n h; interval_cases n; rfl
  | succ f ih =>
    intro n h
    match n with
    | 0 => rfl
    | n + 1 =>
      have h2 : (n + 1) / 2 ≤ f := by omega
      simp only [bitsF, unbits, ih _ h2]
      omega

theorem bits_injective : Function.Injective bits := by
  intro a b h
  have ha : unbits (bits a) = a := unbits_bitsF a a le_rfl
  have hb : unbits (bits b) = b := unbits_bitsF b b le_rfl
  rw [← ha, ← hb, h]

theorem mem_bitsF_lt : ∀ f n d, d ∈ bitsF f n → d < 2 := by
  intro f
  induction f with
  | zero => intro n d h; simp [bitsF] at h
  | succ f ih =>
    intro n d h
    match n with
    | 0 => simp [bitsF] at h
    | n + 1 =>
      simp only [bitsF, List.mem_cons] at h
      rcases h with h | h
      · omega
      · exact ih _ _ h

theorem mem_bits_lt (n d : Nat) (h : d ∈ bits n) : d < 2 :=
  mem_bitsF_lt n n d h

/-- Flatten a list of numbers into digits over the alphabet 0,1,2 where 2
terminates each number's binary expansion. -/
def sepFlat : List Nat → List Nat
  | [] => []
  | n :: ns => bits n ++ 2 :: sepFlat ns

/-- Read a digit string (digits below 3) as a base-4 numeral with an
offset making the empty string distinguishable; injective on digit
strings. -/
def base4 : List Nat → Nat
  | [] => 0
  | d :: ds => base4 ds * 4 + d + 1

/-- Injective packing of an arbitrary `List Nat` into a single `Nat`. -/
def pack3 (l : List Nat) : Nat := base4 (sepFlat l)

theorem base4_inj : ∀ l1 l2 : List Nat, (∀ d ∈ l1, d < 3) → (∀ d ∈ l2, d < 3) →
    base4 l1 = base4 l2 → l1 = l2 := by
  intro l1
  induction l1 with
  | nil =>
    intro l2 _ h2 h
    cases l2 with
    | nil => rfl
    | cons d ds => simp only [base4] at h; omega
  | cons d ds ih =>
    intro l2 h1 h2 h
    cases l2 with
    | nil => simp only [base4] at h; omega
    | cons e es =>
      simp only [base4] at h
      have hd : d < 3 := h1 d (by simp)
      have he : e < 3 := h2 e (by simp)
      have hde : d = e ∧ base4 ds = base4 es := by omega
      have := ih es (fun x hx => h1 x (by simp [hx])) (fun x hx => h2 x (by simp [hx])) hde.2
      rw [hde.1, this]

theorem mem_sepFlat_lt : ∀ l : List Nat, ∀ d ∈ sepFlat l, d < 3 := by
  intro l
  induction l with
  | nil => intro d h; simp [sepFlat] at h
  | cons n ns ih =>
    intro d h
    simp only [sepFlat, List.mem_append, List.mem_cons] at h
    rcases h with h | h | h
    · exact Nat.lt_of_lt_of_le (mem_bits_lt n d h) (by omega)
    · omega
    · exact ih d h

theorem sep_split : ∀ xs1 ys1 xs2 ys2 : List Nat, (2 ∉ xs1) → (2 ∉ xs2) →
    xs1 ++ 2 :: ys1 = xs2 ++ 2 :: ys2 → xs1 = xs2 ∧ ys1 = ys2 := by
  intro xs1
  induction xs1 with
  | nil =>
    intro ys1 xs2 ys2 _ hn2 h
    cases xs2 with
    | nil => simpa using h
    | cons a as =>
      simp only [List.nil_append, List.cons_append, List.cons.injEq] at h
      exact absurd (h.1 ▸ List.mem_cons_self a as) (by simp_all)
  | cons a as ih =>
    intro ys1 xs2 ys2 hn1 hn2 h
    cases xs2 with
    | nil =>
      simp only [List.nil_append, List.cons_append, List.cons.injEq] at h
      exact absurd (h.1 ▸ List.mem_cons_self a as) (by simp_all)
    | cons b bs =>
      simp only [List.cons_append, List.cons.injEq] at h
      have := ih ys1 bs ys2 (by simp_all) (by simp_all) h.2
      exact ⟨by rw [h.1, this.1], this.2⟩

theorem two_not_mem_bits (n : Nat) : 2 ∉ bits n := by
  intro h
  have := mem_bits_lt n 2 h
  omega

theorem sepFlat_inj : ∀ l1 l2 : List Nat, sepFlat l1 = sepFlat l2 → l1 = l2 := by
  intro l1
  induction l1 with
  | nil =>
    intro l2 h
    cases l2 with
    | nil => rfl
    | cons b bs =>
      exfalso
      simp only [sepFlat] at h
      have : (2 : Nat) ∈ ([] : List Nat) := by
        rw [h]; simp
      simp at this
  | cons a as ih =>
    intro l2 h
    cases l2 with
    | nil =>
      exfalso
      simp only [sepFlat] at h
      have : (2 : Nat) ∈ ([] : List Nat) := by
        rw [← h]; simp
      simp at this
    | cons b bs =>
      simp only [sepFlat] at h
      have := sep_split _ _ _ _ (two_not_mem_bits a) (two_not_mem_bits b) h
      have hab : a = b := bits_injective this.1
      rw [hab, ih bs this.2]

theorem pack3_inj : ∀ l1 l2 : List Nat, pack3 l1 = pack3 l2 → l1 = l2 := by
  intro l1 l2 h
  exact sepFlat_inj l1 l2
    (base4_inj _ _ (mem_sepFlat_lt l1) (mem_sepFlat_lt l2) h)

/-- Bytes of a Go string literal (Go strings are byte sequences; we model
them as `List Nat`). -/
def strBytes (s : String) : List Nat := s.data.map Char.toNat

/-- Modelled library primitive `sha256.Sum256`: an ideal 32-entry digest,
injective in its input (collision resistance idealised as injectivity). -/
def sha256Sum (data : List Nat) : List Nat := pack3 data :: List.replicate 31 0

theorem sha256Sum_length (data : List Nat) : (sha256Sum data).length = 32 := by
  simp [sha256Sum]

theorem sha256Sum_inj (a b : List Nat) (h : sha256Sum a = sha256Sum b) : a = b := by
  simp only [sha256Sum, List.cons.injEq] at h
  exact pack3_inj a b h.1

/-- Source `CreateHash` (part_000 lines 161-171): SHA-256 digest of the
passphrase string. -/
def CreateHash (data : List Nat) : List Nat := sha256Sum data

/-- Modelled library type `cipher.Block` for AES: just records the key. -/
structure AESBlock where
  key : List Nat
deriving DecidableEq

/-- Modelled library primitive `aes.NewCipher`: accepts keys of length
16, 24 or 32 only. -/
def aesNewCipher (key : List Nat) : GoResult AESBlock :=
  if key.length = 16 ∨ key.length = 24 ∨ key.length = 32 then .ok ⟨key⟩
  else .err .invalidKeySize

/-- Modelled library type `cipher.AEAD` as produced by `cipher.NewGCM`. -/
structure GCMState where
  key : List Nat
deriving DecidableEq

/-- Modelled library primitive `cipher.NewGCM`: always succeeds on an AES
block cipher (its error path concerns non-128-bit block ciphers). -/
def newGCM (b : AESBlock) : GoResult GCMState := .ok ⟨b.key⟩

/-- GCM standard nonce width in bytes (`gcm.NonceSize()`). -/
def gcmNonceSize : Nat := 12

/-- GCM authentication tag width in bytes (`gcm.Overhead()`). -/
def gcmTagSize : Nat := 16

/-- Keystream of the modelled GCM cipher, a function of key, nonce and
position. -/
def gcmKS (key nonce : List Nat) (i : Nat) : Nat :=
  Nat.pair (pack3 key) (Nat.pair (pack3 nonce) i)

/-- Counter-mode encryption of the modelled GCM cipher starting at
position `i`. -/
def gcmEncSeq (key nonce : List Nat) : Nat → List Nat → List Nat
  | _, [] => []
  | i, m :: ms => (m + gcmKS key nonce i) :: gcmEncSeq key nonce (i + 1) ms

/-- Counter-mode decryption of the modelled GCM cipher. -/
def gcmDecSeq (key nonce : List Nat) : Nat → List Nat → List Nat
  | _, [] => []
  | i, c :: cs => (c - gcmKS key nonce i) :: gcmDecSeq key nonce (i + 1) cs

/-- Authentication tag of the modelled GCM cipher: 16 entries, determined
injectively by key, nonce and sealed body. -/
def gcmTag (key nonce body : List Nat) : List Nat :=
  pack3 [pack3 key, pack3 nonce, pack3 body] :: List.replicate 15 0

/-- Modelled library primitive `gcm.Seal dst nonce plaintext nil`:
appends sealed body and tag to `dst`. -/
def gcmSeal (g : GCMState) (dst nonce pt : List Nat) : List Nat :=
  dst ++ gcmEncSeq g.key nonce 0 pt ++ gcmTag g.key nonce (gcmEncSeq g.key nonce 0 pt)

/-- Tag verification predicate of the modelled GCM cipher: the ciphertext
is long enough to carry a tag and its trailing 16 entries equal the tag
recomputed from key, nonce and body. -/
def gcmTagOK (key nonce ct : List Nat) : Prop :=
  gcmTagSize ≤ ct.length ∧
    ct.drop (ct.length - gcmTagSize) = gcmTag key nonce (ct.take (ct.length - gcmTagSize))

instance (key nonce ct : List Nat) : Decidable (gcmTagOK key nonce ct) := by
  unfold gcmTagOK; infer_instance

/-- Modelled library primitive `gcm.Open nil nonce ct nil`: checks the
trailing tag and decrypts; the single failure is the authentication
error. -/
def gcmOpen (g : GCMState) (nonce ct : List Nat) : GoResult (List Nat) :=
  if _h : gcmTagOK g.key nonce ct then
    .ok (gcmDecSeq g.key nonce 0 (ct.take (ct.length - gcmTagSize)))
  else .err .authenticationFailed

theorem gcmEncSeq_length (key nonce : List Nat) :
    ∀ i pt, (gcmEncSeq key nonce i pt).length = pt.length := by
  intro i pt
  induction pt generalizing i with
  | nil => rfl
  | cons m ms ih => simp [gcmEncSeq, ih]

theorem gcmDecSeq_gcmEncSeq (key nonce : List Nat) :
    ∀ i pt, gcmDecSeq key nonce i (gcmEncSeq key nonce i pt) = pt := by
  intro i pt
  induction pt generalizing i with
  | nil => rfl
  | cons m ms ih => simp [gcmEncSeq, gcmDecSeq, ih]

theorem gcmOpen_gcmSeal (g : GCMState) (nonce pt : List Nat) :
    gcmOpen g nonce (gcmEncSeq g.key nonce 0 pt ++ gcmTag g.key nonce (gcmEncSeq g.key nonce 0 pt)) =
      .ok pt := by
  have hb : (gcmEncSeq g.key nonce 0 pt).length = pt.length := gcmEncSeq_length _ _ _ _
  have htag : (gcmTag g.key nonce (gcmEncSeq g.key nonce 0 pt)).length = 16 := by
    simp [gcmTag]
  have hlen : (gcmEncSeq g.key nonce 0 pt ++ gcmTag g.key nonce (gcmEncSeq g.key nonce 0 pt)).length
      = pt.length + 16 := by
    simp [hb, htag]
  have hsub : (gcmEncSeq g.key nonce 0 pt ++ gcmTag g.key nonce (gcmEncSeq g.key nonce 0 pt)).length
      - gcmTagSize = (gcmEncSeq g.key nonce 0 pt).length := by
    simp [hlen, gcmTagSize, hb]
  have htake : (gcmEncSeq g.key nonce 0 pt ++ gcmTag g.key nonce (gcmEncSeq g.key nonce 0 pt)).take
      ((gcmEncSeq g.key nonce 0 pt ++ gcmTag g.key nonce (gcmEncSeq g.key nonce 0 pt)).length - gcmTagSize)
      = gcmEncSeq g.key nonce 0 pt := by
    rw [hsub]; exact List.take_left _ _
  have hdrop : (gcmEncSeq g.key nonce 0 pt ++ gcmTag g.key nonce (gcmEncSeq g.key nonce 0 pt)).drop
      ((gcmEncSeq g.key nonce 0 pt ++ gcmTag g.key nonce (gcmEncSeq g.key nonce 0 pt)).length - gcmTagSize)
      = gcmTag g.key nonce (gcmEncSeq g.key nonce 0 pt) := by
    rw [hsub]; exact List.drop_left _ _
  have ht16 : gcmTagSize = 16 := rfl
  have hok : gcmTagOK g.key nonce
      (gcmEncSeq g.key nonce 0 pt ++ gcmTag g.key nonce (gcmEncSeq g.key nonce 0 pt)) := by
    refine ⟨by omega, ?_⟩
    rw [hdrop, htake]
  rw [gcmOpen, dif_pos hok, htake, gcmDecSeq_gcmEncSeq]

theorem CreateHash_length (pw : List Nat) : (CreateHash pw).length = 32 :=
  sha256Sum_length pw

theorem aesNewCipher_hash (pw : List Nat) :
    aesNewCipher (CreateHash pw) = .ok ⟨CreateHash pw⟩ := by
  rw [aesNewCipher, if_pos]
  right; right; exact CreateHash_length pw

/-- Source `EncryptAES` (part_000 lines 180-217): derive the key with
`CreateHash`, build AES-GCM, draw a fresh 12-byte nonce from the random
source (modelled as the explicit input `rnd`), and return
`gcm.Seal(nonce, nonce, data, nil)`, i.e. nonce followed by the sealed
payload. -/
def EncryptAES (data passphrase : List Nat) (rnd : Nat → Nat) : GoResult (List Nat) :=
  (aesNewCipher (CreateHash passphrase)).bind fun block =>
    (newGCM block).bind fun gcm =>
      let nonce := (List.range gcmNonceSize).map rnd
      .ok (gcmSeal gcm nonce nonce data)

/-- Source `DecryptAES` (part_000 lines 219-255): derive the key the same
way, reject inputs shorter than the nonce width with a typed error, split
off the nonce prefix and open the remainder. -/
def DecryptAES (data passphrase : List Nat) : GoResult (List Nat) :=
  (aesNewCipher (CreateHash passphrase)).bind fun block =>
    (newGCM block).bind fun gcm =>
      if data.length < gcmNonceSize then .err .inputTooShort
      else gcmOpen gcm (data.take gcmNonceSize) (data.drop gcmNonceSize)

namespace V0

/-- Source `DecryptAES` (crypto.go lines 200-218): the variant without
the length guard; it panics on any cipher, slicing or authentication
failure instead of returning an error. Slicing `data[:12]` of a shorter
slice is a Go run-time panic, and `gcm.Open` failure hits an explicit
`panic(err.Error())`. -/
def DecryptAES (data passphrase : List Nat) : GoResult (List Nat) :=
  match aesNewCipher (CreateHash passphrase) with
  | .err _ => .crash "crypto/aes: invalid key size"
  | .crash m => .crash m
  | .ok block =>
    match newGCM block with
    | .err _ => .crash "cipher: NewGCM failed"
    | .crash m => .crash m
    | .ok gcm =>
      if data.length < gcmNonceSize then
        .crash "runtime error: slice bounds out of range"
      else
        match gcmOpen gcm (data.take gcmNonceSize) (data.drop gcmNonceSize) with
        | .err _ => .crash "cipher: message authentication failed"
        | .crash m => .crash m
        | .ok pt => .ok pt

end V0

theorem EncryptAES_eq (data pw : List Nat) (rnd : Nat → Nat) :
    EncryptAES data pw rnd =
      .ok (((List.range gcmNonceSize).map rnd) ++
        (gcmEncSeq (CreateHash pw) ((List.range gcmNonceSize).map rnd) 0 data ++
         gcmTag (CreateHash pw) ((List.range gcmNonceSize).map rnd)
           (gcmEncSeq (CreateHash pw) ((List.range gcmNonceSize).map rnd) 0 data))) := by
  rw [EncryptAES, aesNewCipher_hash]
  simp only [GoResult.bind, newGCM, gcmSeal, List.append_assoc]

theorem DecryptAES_eq (data pw : List Nat) :
    DecryptAES data pw =
      if data.length < gcmNonceSize then .err .inputTooShort
      else gcmOpen ⟨CreateHash pw⟩ (data.take gcmNonceSize) (data.drop gcmNonceSize) := by
  rw [DecryptAES, aesNewCipher_hash]
  simp only [GoResult.bind, newGCM]

theorem gcmOpen_ne_inputTooShort (g : GCMState) (nonce ct : List Nat) :
    gcmOpen g nonce ct ≠ .err .inputTooShort := by
  rw [gcmOpen]
  split <;> simp

theorem gcmTag_inj_key (k1 k2 n b : List Nat) (h : gcmTag k1 n b = gcmTag k2 n b) :
    k1 = k2 := by
  simp only [gcmTag, List.cons.injEq] at h
  have := pack3_inj _ _ h.1
  simp only [List.cons.injEq] at this
  exact pack3_inj _ _ this.1

theorem CreateHash_inj (a b : List Nat) (h : CreateHash a = CreateHash b) : a = b :=
  sha256Sum_inj a b h

/-- C1: for every plaintext, passphrase and random source, symmetric
decryption of the symmetric encryption output under the same passphrase
returns the original plaintext; the nonce drawn inside `EncryptAES` is
the explicit random-source input and the ciphertext is the nonce prefix
followed by the sealed payload. -/
theorem aes_roundtrip (data pw : List Nat) (rnd : Nat → Nat) :
    (EncryptAES data pw rnd).bind (fun c => DecryptAES c pw) = .ok data := by
  rw [EncryptAES_eq]
  simp only [GoResult.bind]
  rw [DecryptAES_eq]
  have hn : ((List.range gcmNonceSize).map rnd).length = gcmNonceSize := by simp
  have hnlt : ¬ ((((List.range gcmNonceSize).map rnd) ++
      (gcmEncSeq (CreateHash pw) ((List.range gcmNonceSize).map rnd) 0 data ++
       gcmTag (CreateHash pw) ((List.range gcmNonceSize).map rnd)
         (gcmEncSeq (CreateHash pw) ((List.range gcmNonceSize).map rnd) 0 data))).length
      < gcmNonceSize) := by
    rw [List.length_append, hn]; omega
  rw [if_neg hnlt, List.take_left' hn, List.drop_left' hn]
  exact gcmOpen_gcmSeal ⟨CreateHash pw⟩ ((List.range gcmNonceSize).map rnd) data

/-- C10: the ciphertext produced by `EncryptAES` is exactly 28 entries
longer than the plaintext: a 12-entry nonce prefix, the sealed payload of
the plaintext's length, and a 16-entry integrity tag. -/
theorem encryptAES_length (data pw : List Nat) (rnd : Nat → Nat) :
    (EncryptAES data pw rnd).map List.length = .ok (data.length + 28) := by
  rw [EncryptAES_eq]
  simp only [GoResult.map, List.length_append, List.length_map, List.length_range,
    gcmEncSeq_length, gcmTag, List.length_cons, List.length_replicate, gcmNonceSize,
    GoResult.ok.injEq]
  omega

/-- C3: `DecryptAES` fails with the input-too-short error exactly when
the input is shorter than the 12-entry nonce width; for inputs at least
that long it fails with the authentication error exactly when the
integrity tag of the sealed payload does not verify; and decrypting a
ciphertext produced under a different passphrase always hits that same
authentication error (wrong passphrase and tampering are
indistinguishable). -/
theorem decryptAES_error_taxonomy (c pw : List Nat) :
    (DecryptAES c pw = .err .inputTooShort ↔ c.length < gcmNonceSize) ∧
    (gcmNonceSize ≤ c.length →
      (DecryptAES c pw = .err .authenticationFailed ↔
        ¬ gcmTagOK (CreateHash pw) (c.take gcmNonceSize) (c.drop gcmNonceSize))) ∧
    (∀ p rnd pw2 ct, pw2 ≠ pw → EncryptAES p pw2 rnd = .ok ct →
      DecryptAES ct pw = .err .authenticationFailed) := by
  refine ⟨?_, ?_, ?_⟩
  · rw [DecryptAES_eq]
    by_cases h : c.length < gcmNonceSize
    · simp [h]
    · simp only [if_neg h]
      simp only [h, iff_false]
      exact gcmOpen_ne_inputTooShort _ _ _
  · intro hge
    have h : ¬ c.length < gcmNonceSize := by omega
    rw [DecryptAES_eq, if_neg h]
    by_cases htag : gcmTagOK (CreateHash pw) (c.take gcmNonceSize) (c.drop gcmNonceSize)
    · simp [gcmOpen, htag]
    · simp [gcmOpen, htag]
  · intro p rnd pw2 ct hne henc
    rw [EncryptAES_eq] at henc
    have hct : ct = ((List.range gcmNonceSize).map rnd) ++
        (gcmEncSeq (CreateHash pw2) ((List.range gcmNonceSize).map rnd) 0 p ++
         gcmTag (CreateHash pw2) ((List.range gcmNonceSize).map rnd)
           (gcmEncSeq (CreateHash pw2) ((List.range gcmNonceSize).map rnd) 0 p)) := by
      cases henc; rfl
    subst hct
    have hn : ((List.range gcmNonceSize).map rnd).length = gcmNonceSize := by simp
    have hnlt : ¬ ((((List.range gcmNonceSize).map rnd) ++
        (gcmEncSeq (CreateHash pw2) ((List.range gcmNonceSize).map rnd) 0 p ++
         gcmTag (CreateHash pw2) ((List.range gcmNonceSize).map rnd)
           (gcmEncSeq (CreateHash pw2) ((List.range gcmNonceSize).map rnd) 0 p))).length
        < gcmNonceSize) := by
      rw [List.length_append, hn]; omega
    rw [DecryptAES_eq, if_neg hnlt, List.take_left' hn, List.drop_left' hn]
    set nonce := (List.range gcmNonceSize).map rnd with hnonce
    set body := gcmEncSeq (CreateHash pw2) nonce 0 p with hbody
    set tg := gcmTag (CreateHash pw2) nonce body with htg
    have hblen : body.length = p.length := by rw [hbody]; exact gcmEncSeq_length _ _ _ _
    have htlen : tg.length = 16 := by rw [htg]; simp [gcmTag]
    have hsub : (body ++ tg).length - gcmTagSize = body.length := by
      rw [List.length_append, htlen]; simp [gcmTagSize]
    have htake : (body ++ tg).take ((body ++ tg).length - gcmTagSize) = body := by
      rw [hsub]; exact List.take_left _ _
    have hdrop : (body ++ tg).drop ((body ++ tg).length - gcmTagSize) = tg := by
      rw [hsub]; exact List.drop_left _ _
    have hnot : ¬ gcmTagOK (CreateHash pw) nonce (body ++ tg) := by
      intro hok
      rcases hok with ⟨_, heq⟩
      rw [hdrop, htake, htg] at heq
      have hkeys := gcmTag_inj_key _ _ _ _ heq
      exact hne (CreateHash_inj _ _ hkeys)
    rw [gcmOpen, dif_neg hnot]

/-- Concrete instantiation of `decryptAES_error_taxonomy`: a 3-entry
input is rejected as too short, a 28-entry all-zero input fails
authentication, and a ciphertext sealed under passphrase "qq" fails
authentication when opened under passphrase "pw". -/
theorem decryptAES_error_taxonomy_witness :
    DecryptAES [1, 2, 3] (strBytes "pw") = .err .inputTooShort ∧
    DecryptAES (List.replicate 28 0) (strBytes "pw") = .err .authenticationFailed ∧
    DecryptAES (gcmSeal ⟨CreateHash (strBytes "qq")⟩
        ((List.range gcmNonceSize).map fun _ => 0)
        ((List.range gcmNonceSize).map fun _ => 0) [1]) (strBytes "pw") =
      .err .authenticationFailed :=
  ⟨(decryptAES_error_taxonomy [1, 2, 3] (strBytes "pw")).1.mpr (by decide),
   ((decryptAES_error_taxonomy (List.replicate 28 0) (strBytes "pw")).2.1
      (by decide)).mpr (by decide),
   (decryptAES_error_taxonomy [] (strBytes "pw")).2.2 [1] (fun _ => 0)
      (strBytes "qq") _ (by decide) rfl⟩

/-- RSA private key as in `rsa.PrivateKey` (modulus, public exponent,
private exponent, two primes). -/
structure RSAPrivateKey where
  n : Nat
  e : Nat
  d : Nat
  p : Nat
  q : Nat
deriving DecidableEq

/-- RSA public key as in `rsa.PublicKey`. -/
structure RSAPublicKey where
  n : Nat
  e : Nat
deriving DecidableEq

/-- The public half `&priv.PublicKey` of a private key. -/
def pubOfPriv (k : RSAPrivateKey) : RSAPublicKey := ⟨k.n, k.e⟩

/-- Modelled from `rsa.PrivateKey.Validate` (run by the library parsers):
the modulus is the product of the primes and the exponents are congruent
inverses modulo each prime minus one. -/
def Validate (k : RSAPrivateKey) : Bool :=
  k.n == k.p * k.q && 2 ≤ k.p && 2 ≤ k.q &&
    (k.e * k.d) % (k.p - 1) == 1 % (k.p - 1) &&
    (k.e * k.d) % (k.q - 1) == 1 % (k.q - 1)

/-- A PEM block as in `pem.Block`: type label, headers, body bytes
(labels and header strings modelled as byte lists, like all Go strings
here). -/
structure PemBlock where
  type : List Nat
  headers : List (List Nat × List Nat)
  bytes : List Nat
deriving DecidableEq

/-- The dash run opening a PEM armor line; input without it has no PEM
block at all (`pem.Decode` returns nil). -/
def pemMagic : List Nat := [45, 45, 45, 45, 45]

/-- Length-prefixed segment of the modelled PEM serialization. -/
def encSeg (l : List Nat) : List Nat := l.length :: l

/-- Read one length-prefixed segment; `none` when the data is truncated. -/
def decSeg : List Nat → Option (List Nat × List Nat)
  | [] => none
  | n :: rest => if n ≤ rest.length then some (rest.take n, rest.drop n) else none

def encHeaderList : List (List Nat × List Nat) → List Nat
  | [] => []
  | (k, v) :: hs => encSeg k ++ (encSeg v ++ encHeaderList hs)

def decHeaderList : Nat → List Nat → Option (List (List Nat × List Nat) × List Nat)
  | 0, l => some ([], l)
  | c + 1, l =>
    match decSeg l with
    | none => none
    | some (k, l1) =>
      match decSeg l1 with
      | none => none
      | some (v, l2) =>
        match decHeaderList c l2 with
        | none => none
        | some (hs, l3) => some ((k, v) :: hs, l3)

/-- Modelled library primitive `pem.EncodeToMemory`: armor magic, then
label, headers and body as self-delimiting segments. -/
def pemEncodeToMemory (b : PemBlock) : List Nat :=
  pemMagic ++ (encSeg b.type ++ ((b.headers.length :: encHeaderList b.headers) ++ encSeg b.bytes))

/-- Modelled library primitive `pem.Decode`: returns the first PEM block
and the rest of the input, or `none` (Go: a nil pointer) when the input
carries no PEM armor or is truncated. -/
def pemDecode (data : List Nat) : Option (PemBlock × List Nat) :=
  if data.take 5 = pemMagic then
    match decSeg (data.drop 5) with
    | none => none
    | some (ty, r1) =>
      match r1 with
      | [] => none
      | hc :: r2 =>
        match decHeaderList hc r2 with
        | none => none
        | some (hs, r3) =>
          match decSeg r3 with
          | none => none
          | some (bs, r4) => some (⟨ty, hs, bs⟩, r4)
  else none

theorem decSeg_encSeg (l rest : List Nat) : decSeg (encSeg l ++ rest) = some (l, rest) := by
  show decSeg (l.length :: (l ++ rest)) = some (l, rest)
  rw [decSeg, if_pos]
  · rw [List.take_left, List.drop_left]
  · rw [List.length_append]; omega

theorem decSeg_encSeg_nil (l : List Nat) : decSeg (encSeg l) = some (l, []) := by
  have h := decSeg_encSeg l []
  rwa [List.append_nil] at h

theorem decHeaderList_encHeaderList :
    ∀ (hs : List (List Nat × List Nat)) (rest : List Nat),
    decHeaderList hs.length (encHeaderList hs ++ rest) = some (hs, rest) := by
  intro hs
  induction hs with
  | nil => intro rest; rfl
  | cons kv tl ih =>
    intro rest
    obtain ⟨k, v⟩ := kv
    show decHeaderList (tl.length + 1)
      ((encSeg k ++ (encSeg v ++ encHeaderList tl)) ++ rest) = _
    rw [List.append_assoc, List.append_assoc]
    simp only [decHeaderList, decSeg_encSeg, ih]

theorem pemDecode_pemEncodeToMemory (b : PemBlock) :
    pemDecode (pemEncodeToMemory b) = some (b, []) := by
  have hmagic : (pemEncodeToMemory b).take 5 = pemMagic := by
    show (pemMagic ++ _).take 5 = pemMagic
    exact List.take_left' rfl
  have hdrop : (pemEncodeToMemory b).drop 5 =
      encSeg b.type ++ ((b.headers.length :: encHeaderList b.headers) ++ encSeg b.bytes) := by
    show (pemMagic ++ _).drop 5 = _
    exact List.drop_left' rfl
  rw [pemDecode, if_pos hmagic, hdrop]
  have hcons : (b.headers.length :: encHeaderList b.headers) ++ encSeg b.bytes =
      b.headers.length :: (encHeaderList b.headers ++ encSeg b.bytes) := rfl
  simp only [decSeg_encSeg, hcons, decHeaderList_encHeaderList, decSeg_encSeg_nil]

/-- Modelled library primitive `x509.IsEncryptedPEMBlock`: a block is
encrypted when it carries the `Proc-Type: 4,ENCRYPTED` header. -/
def isEncryptedPEMBlock (b : PemBlock) : Bool :=
  b.headers.any fun kv => kv.1 = strBytes "Proc-Type" ∧ kv.2 = strBytes "4,ENCRYPTED"

/-- Modelled library primitive `x509.DecryptPEMBlock` called with a nil
password, as the source does: the original secret is never supplied, so
decryption always fails. -/
def decryptPEMBlock (_b : PemBlock) (_password : Option (List Nat)) :
    GoResult (List Nat) :=
  .err .incorrectPassword

/-- Modelled library primitive `x509.MarshalPKCS1PrivateKey`: symbolic
DER record of the five key numbers. -/
def marshalPKCS1PrivateKey (k : RSAPrivateKey) : List Nat := [k.n, k.e, k.d, k.p, k.q]

/-- Modelled library primitive `x509.ParsePKCS1PrivateKey`: decodes the
five-number record and validates the key; anything else is a parse
error. -/
def parsePKCS1PrivateKey : List Nat → GoResult RSAPrivateKey
  | [n, e, d, p, q] =>
    if Validate ⟨n, e, d, p, q⟩ then .ok ⟨n, e, d, p, q⟩ else .err .malformedKey
  | _ => .err .malformedKey

/-- Content of a PKCS#8 container: an RSA private key or key material of
some other algorithm (the `interface` value Go's parser returns). -/
inductive PKCS8Key where
  | rsaPriv (k : RSAPrivateKey)
  | otherAlg (payload : List Nat)
deriving DecidableEq

/-- Modelled library primitive `x509.MarshalPKCS8PrivateKey`: tagged
generic container. -/
def marshalPKCS8PrivateKey : PKCS8Key → List Nat
  | .rsaPriv k => 0 :: marshalPKCS1PrivateKey k
  | .otherAlg payload => 1 :: payload

/-- Modelled library primitive `x509.ParsePKCS8PrivateKey`. -/
def parsePKCS8PrivateKey : List Nat → GoResult PKCS8Key
  | 0 :: rest =>
    match parsePKCS1PrivateKey rest with
    | .ok k => .ok (.rsaPriv k)
    | .err e => .err e
    | .crash m => .crash m
  | 1 :: payload => .ok (.otherAlg payload)
  | _ => .err .malformedKey

/-- Content of a PKIX (generic multi-algorithm) public-key container. -/
inductive PKIXKey where
  | rsaPub (k : RSAPublicKey)
  | otherPub (payload : List Nat)
deriving DecidableEq

/-- Modelled library primitive `x509.MarshalPKIXPublicKey`. -/
def marshalPKIXPublicKey : PKIXKey → List Nat
  | .rsaPub k => [0, k.n, k.e]
  | .otherPub payload => 1 :: payload

/-- Modelled library primitive `x509.ParsePKIXPublicKey`. -/
def parsePKIXPublicKey : List Nat → GoResult PKIXKey
  | [0, n, e] => .ok (.rsaPub ⟨n, e⟩)
  | 1 :: payload => .ok (.otherPub payload)
  | _ => .err .malformedKey

/-- Source `PrivateKeyToBytes` (part_000 lines 39-47): PKCS#1 encoding in
a PEM envelope with the legacy label. -/
def PrivateKeyToBytes (priv : RSAPrivateKey) : List Nat :=
  pemEncodeToMemory ⟨strBytes "RSA PRIVATE KEY", [], marshalPKCS1PrivateKey priv⟩

/-- Source `PublicKeyToBytes` (part_000 lines 49-67): PKIX encoding in a
PEM envelope labelled `RSA PUBLIC KEY`. -/
def PublicKeyToBytes (pub : RSAPublicKey) : GoResult (List Nat) :=
  .ok (pemEncodeToMemory
    ⟨strBytes "RSA PUBLIC KEY", [], marshalPKIXPublicKey (.rsaPub pub)⟩)

/-- The `switch block.Type` body of the source `BytesToPrivateKey`. -/
def bytesToPrivateKeyDispatch (ty b : List Nat) : GoResult RSAPrivateKey :=
  if ty = strBytes "RSA PRIVATE KEY" then
    match parsePKCS1PrivateKey b with
    | .ok k => .ok k
    | .err e => .err e
    | .crash m => .crash m
  else if ty = strBytes "PRIVATE KEY" then
    match parsePKCS8PrivateKey b with
    | .ok (.rsaPriv k) => .ok k
    | .ok _ => .err .unsupportedKeyType
    | .err e => .err e
    | .crash m => .crash m
  else .err .unknownContainerType

/-- Source `BytesToPrivateKey` (part_000 lines 69-107): decode the PEM
block — dereferencing the result without a nil check, so non-PEM input
crashes —, attempt password decryption when the block declares
encryption, then dispatch on the declared type label. -/
def BytesToPrivateKey (data : List Nat) : GoResult RSAPrivateKey :=
  match pemDecode data with
  | none => .crash "runtime error: invalid memory address or nil pointer dereference"
  | some (block, _) =>
    if isEncryptedPEMBlock block then
      match decryptPEMBlock block none with
      | .err e => .err e
      | .crash m => .crash m
      | .ok b2 => bytesToPrivateKeyDispatch block.type b2
    else bytesToPrivateKeyDispatch block.type block.bytes

/-- The PKIX parse plus type assertion of the source `BytesToPublicKey`. -/
def bytesToPublicKeyParse (b : List Nat) : GoResult RSAPublicKey :=
  match parsePKIXPublicKey b with
  | .ok (.rsaPub k) => .ok k
  | .ok _ => .err .typeMismatch
  | .err e => .err e
  | .crash m => .crash m

/-- Source `BytesToPublicKey` (part_000 lines 109-137): decode the PEM
block with the same unchecked dereference, attempt password decryption
when the block declares encryption, then parse the body as a PKIX key
and type-assert it to an RSA public key.  Note that the declared type
label is never inspected. -/
def BytesToPublicKey (data : List Nat) : GoResult RSAPublicKey :=
  match pemDecode data with
  | none => .crash "runtime error: invalid memory address or nil pointer dereference"
  | some (block, _) =>
    if isEncryptedPEMBlock block then
      match decryptPEMBlock block none with
      | .err e => .err e
      | .crash m => .crash m
      | .ok b2 => bytesToPublicKeyParse b2
    else bytesToPublicKeyParse block.bytes

theorem bytesToPrivateKey_plain (ty body : List Nat) :
    BytesToPrivateKey (pemEncodeToMemory ⟨ty, [], body⟩) =
      bytesToPrivateKeyDispatch ty body := by
  rw [BytesToPrivateKey]
  simp only [pemDecode_pemEncodeToMemory, isEncryptedPEMBlock, List.any_nil,
    Bool.false_eq_true, if_false]

theorem bytesToPublicKey_plain (ty body : List Nat) :
    BytesToPublicKey (pemEncodeToMemory ⟨ty, [], body⟩) = bytesToPublicKeyParse body := by
  rw [BytesToPublicKey]
  simp only [pemDecode_pemEncodeToMemory, isEncryptedPEMBlock, List.any_nil,
    Bool.false_eq_true, if_false]

theorem parsePKCS1_marshal (k : RSAPrivateKey) (h : Validate k = true) :
    parsePKCS1PrivateKey (marshalPKCS1PrivateKey k) = .ok k := by
  show parsePKCS1PrivateKey [k.n, k.e, k.d, k.p, k.q] = .ok k
  simp only [parsePKCS1PrivateKey]
  have hk : (⟨k.n, k.e, k.d, k.p, k.q⟩ : RSAPrivateKey) = k := rfl
  rw [hk, if_pos h]

/-- C2 (code bug): on invalid input the source crashes rather than
returning a typed failure.  `BytesToPrivateKey` and `BytesToPublicKey`
dereference the nil result of `pem.Decode` on non-PEM bytes, and the
crypto.go variant of `DecryptAES` panics both on inputs shorter than the
nonce (out-of-range slice) and on tampered ciphertext (explicit
`panic(err.Error())`). -/
theorem crypto_crash_on_invalid_input :
    BytesToPrivateKey (strBytes "hello") =
      .crash "runtime error: invalid memory address or nil pointer dereference" ∧
    BytesToPublicKey (strBytes "hello") =
      .crash "runtime error: invalid memory address or nil pointer dereference" ∧
    V0.DecryptAES [1, 2, 3] (strBytes "pw") =
      .crash "runtime error: slice bounds out of range" ∧
    V0.DecryptAES (List.replicate 28 0) (strBytes "pw") =
      .crash "cipher: message authentication failed" := by
  refine ⟨?_, ?_, ?_, ?_⟩ <;> decide

/-- C4: serialization of a valid key pair round-trips losslessly, for
the private key through `PrivateKeyToBytes`/`BytesToPrivateKey` and for
its public half through `PublicKeyToBytes`/`BytesToPublicKey`. -/
theorem key_serialization_roundtrip (k : RSAPrivateKey) (h : Validate k = true) :
    BytesToPrivateKey (PrivateKeyToBytes k) = .ok k ∧
    (∀ bs, PublicKeyToBytes (pubOfPriv k) = .ok bs →
      BytesToPublicKey bs = .ok (pubOfPriv k)) := by
  constructor
  · rw [PrivateKeyToBytes, bytesToPrivateKey_plain, bytesToPrivateKeyDispatch,
      if_pos rfl, parsePKCS1_marshal k h]
  · intro bs hbs
    have hb : bs = pemEncodeToMemory
        ⟨strBytes "RSA PUBLIC KEY", [], marshalPKIXPublicKey (.rsaPub (pubOfPriv k))⟩ := by
      cases hbs; rfl
    subst hb
    rw [bytesToPublicKey_plain]
    rfl

/-- Concrete instantiation of `key_serialization_roundtrip` at the valid
key (n=33, e=3, d=7, p=3, q=11). -/
theorem key_serialization_roundtrip_witness :
    Validate ⟨33, 3, 7, 3, 11⟩ = true ∧
    BytesToPrivateKey (PrivateKeyToBytes ⟨33, 3, 7, 3, 11⟩) = .ok ⟨33, 3, 7, 3, 11⟩ ∧
    BytesToPublicKey (pemEncodeToMemory ⟨strBytes "RSA PUBLIC KEY", [],
      marshalPKIXPublicKey (.rsaPub ⟨33, 3⟩)⟩) = .ok ⟨33, 3⟩ :=
  ⟨by decide, (key_serialization_roundtrip ⟨33, 3, 7, 3, 11⟩ (by decide)).1,
   (key_serialization_roundtrip ⟨33, 3, 7, 3, 11⟩ (by decide)).2 _ rfl⟩

/-- C5: `BytesToPrivateKey` dispatches on the envelope's declared type
label: `RSA PRIVATE KEY` is parsed as PKCS#1, `PRIVATE KEY` as PKCS#8
with a type check that the content is an RSA private key (wrong
algorithm is rejected), and every other label of a plain (non-encrypted)
container yields the unknown-container error without attempting a
parse. -/
theorem bytesToPrivateKey_label_dispatch (k : RSAPrivateKey) (ty body pl : List Nat) :
    (Validate k = true →
      BytesToPrivateKey (pemEncodeToMemory
        ⟨strBytes "RSA PRIVATE KEY", [], marshalPKCS1PrivateKey k⟩) = .ok k) ∧
    (Validate k = true →
      BytesToPrivateKey (pemEncodeToMemory
        ⟨strBytes "PRIVATE KEY", [], marshalPKCS8PrivateKey (.rsaPriv k)⟩) = .ok k) ∧
    (BytesToPrivateKey (pemEncodeToMemory
        ⟨strBytes "PRIVATE KEY", [], marshalPKCS8PrivateKey (.otherAlg pl)⟩) =
      .err .unsupportedKeyType) ∧
    (ty ≠ strBytes "RSA PRIVATE KEY" → ty ≠ strBytes "PRIVATE KEY" →
      BytesToPrivateKey (pemEncodeToMemory ⟨ty, [], body⟩) = .err .unknownContainerType) := by
  refine ⟨?_, ?_, ?_, ?_⟩
  · intro h
    rw [bytesToPrivateKey_plain, bytesToPrivateKeyDispatch, if_pos rfl,
      parsePKCS1_marshal k h]
  · intro h
    rw [bytesToPrivateKey_plain, bytesToPrivateKeyDispatch, if_neg (by decide),
      if_pos rfl]
    show (match parsePKCS8PrivateKey (0 :: marshalPKCS1PrivateKey k) with
      | .ok (.rsaPriv k) => GoResult.ok k
      | .ok _ => .err .unsupportedKeyType
      | .err e => .err e
      | .crash m => .crash m) = .ok k
    simp only [parsePKCS8PrivateKey, parsePKCS1_marshal k h]
  · rw [bytesToPrivateKey_plain, bytesToPrivateKeyDispatch, if_neg (by decide),
      if_pos rfl]
    rfl
  · intro h1 h2
    rw [bytesToPrivateKey_plain, bytesToPrivateKeyDispatch, if_neg h1, if_neg h2]

/-- Concrete instantiation of `bytesToPrivateKey_label_dispatch`: both
accepted labels round-trip the valid key (33, 3, 7, 3, 11), a PKCS#8
container of another algorithm is rejected as an unsupported key type,
and the label `EC PRIVATE KEY` is rejected as an unknown container. -/
theorem bytesToPrivateKey_label_dispatch_witness :
    BytesToPrivateKey (pemEncodeToMemory ⟨strBytes "RSA PRIVATE KEY", [],
      marshalPKCS1PrivateKey ⟨33, 3, 7, 3, 11⟩⟩) = .ok ⟨33, 3, 7, 3, 11⟩ ∧
    BytesToPrivateKey (pemEncodeToMemory ⟨strBytes "PRIVATE KEY", [],
      marshalPKCS8PrivateKey (.rsaPriv ⟨33, 3, 7, 3, 11⟩)⟩) = .ok ⟨33, 3, 7, 3, 11⟩ ∧
    BytesToPrivateKey (pemEncodeToMemory ⟨strBytes "PRIVATE KEY", [],
      marshalPKCS8PrivateKey (.otherAlg [5, 5])⟩) = .err .unsupportedKeyType ∧
    BytesToPrivateKey (pemEncodeToMemory ⟨strBytes "EC PRIVATE KEY", [], [1, 2, 3]⟩) =
      .err .unknownContainerType :=
  ⟨(bytesToPrivateKey_label_dispatch ⟨33, 3, 7, 3, 11⟩ [] [] []).1 (by decide),
   (bytesToPrivateKey_label_dispatch ⟨33, 3, 7, 3, 11⟩ [] [] []).2.1 (by decide),
   (bytesToPrivateKey_label_dispatch ⟨33, 3, 7, 3, 11⟩ [] [] [5, 5]).2.2.1,
   (bytesToPrivateKey_label_dispatch ⟨33, 3, 7, 3, 11⟩ (strBytes "EC PRIVATE KEY")
      [1, 2, 3] []).2.2.2 (by decide) (by decide)⟩

/-- C6 is refuted: `BytesToPublicKey` never inspects the envelope label,
so a PEM container labelled `FOO` whose body is a PKIX RSA key decodes
successfully instead of failing with the unknown-container error. -/
theorem bytesToPublicKey_ignores_label_counterexample :
    BytesToPublicKey (pemEncodeToMemory ⟨strBytes "FOO", [],
      marshalPKIXPublicKey (.rsaPub ⟨33, 3⟩)⟩) = .ok ⟨33, 3⟩ := by
  decide

/-- C6 (amended): `BytesToPublicKey` decodes by content alone,
regardless of the envelope label: a PKIX RSA body decodes to the key
under any label, and a PKIX body of another algorithm fails with the
type-mismatch error under any label. -/
theorem bytesToPublicKey_label_independent (ty pl : List Nat) (pub : RSAPublicKey) :
    BytesToPublicKey (pemEncodeToMemory ⟨ty, [], marshalPKIXPublicKey (.rsaPub pub)⟩) =
      .ok pub ∧
    BytesToPublicKey (pemEncodeToMemory ⟨ty, [], marshalPKIXPublicKey (.otherPub pl)⟩) =
      .err .typeMismatch := by
  constructor
  · rw [bytesToPublicKey_plain]; rfl
  · rw [bytesToPublicKey_plain]; rfl

/-- Bit length of a natural number via the structural `bits`. -/
def bitLen (n : Nat) : Nat := (bits n).length

/-- Modelled `rsa.PublicKey.Size`: modulus length in bytes. -/
def rsaSize (n : Nat) : Nat := (bitLen n + 7) / 8

/-- The key material `rsa.GenerateKey` produces for a given random
source and size (modelled: a modulus of exactly `numBits` bits). -/
def rsaGenKeyOf (rnd : Nat → Nat) (numBits : Nat) : RSAPrivateKey :=
  ⟨2 ^ (numBits - 1) + 1, 65537, rnd 0, 2 ^ (numBits / 2), 2 ^ (numBits - numBits / 2)⟩

/-- Modelled library primitive `rsa.GenerateKey`: succeeds for any
requested size large enough for prime generation (it enforces no
2048-bit policy floor of its own). -/
def rsaGenerateKey (rnd : Nat → Nat) (numBits : Nat) : GoResult RSAPrivateKey :=
  if numBits < 64 then .err .keyGenError else .ok (rsaGenKeyOf rnd numBits)

/-- Source `GenerateKeyPair` (part_000 lines 26-37): forwards `bits`
directly to `rsa.GenerateKey` — there is no minimum-size check of its
own — and returns the private key with its public half. -/
def GenerateKeyPair (numBits : Nat) (rnd : Nat → Nat) :
    GoResult (RSAPrivateKey × RSAPublicKey) :=
  match rsaGenerateKey rnd numBits with
  | .err e => .err e
  | .crash m => .crash m
  | .ok k => .ok (k, pubOfPriv k)

/-- Modelled library primitive `rsa.EncryptOAEP` with a SHA-512 digest
(64-byte hash): enforces the message bound `len(msg) <= k - 2*64 - 2`
where `k` is the modulus byte size, and otherwise produces a ciphertext
determined by the public key, the randomness and the message. -/
def rsaEncryptOAEP (pub : RSAPublicKey) (seed : Nat) (msg : List Nat) :
    GoResult (List Nat) :=
  if (msg.length : Int) > (rsaSize pub.n : Int) - 2 * 64 - 2 then .err .payloadTooLarge
  else .ok (pub.n :: pub.e :: seed :: msg)

/-- Modelled library primitive `rsa.DecryptOAEP`: recovers the message
exactly when the private key matches the public key the ciphertext was
made under; every other outcome is the single indistinguishable
decryption error. -/
def rsaDecryptOAEP (priv : RSAPrivateKey) (ct : List Nat) : GoResult (List Nat) :=
  match ct with
  | n :: e :: _seed :: rest =>
    if n = priv.n ∧ e = priv.e then .ok rest else .err .decryptionFailed
  | _ => .err .decryptionFailed

/-- Source `EncryptWithPublicKey` (part_000 lines 139-143): RSA-OAEP
with SHA-512; the OAEP randomness is the explicit `seed` input. -/
def EncryptWithPublicKey (msg : List Nat) (pub : RSAPublicKey) (seed : Nat) :
    GoResult (List Nat) :=
  rsaEncryptOAEP pub seed msg

/-- Source `DecryptWithPrivateKey` (part_000 lines 145-149). -/
def DecryptWithPrivateKey (ciphertext : List Nat) (priv : RSAPrivateKey) :
    GoResult (List Nat) :=
  rsaDecryptOAEP priv ciphertext

/-- Modelled library primitive `rsa.SignPKCS1v15` (deterministic v1.5
padding): the signature is bound to the key pair and the digest. -/
def rsaSignPKCS1v15 (priv : RSAPrivateKey) (digest : List Nat) : GoResult (List Nat) :=
  .ok (priv.n :: priv.e :: digest)

/-- Modelled library primitive `rsa.VerifyPKCS1v15`: succeeds exactly
when the signature was produced by the matching key over the same
digest. -/
def rsaVerifyPKCS1v15 (pub : RSAPublicKey) (digest sig : List Nat) : GoResult Unit :=
  match sig with
  | n :: e :: dg =>
    if n = pub.n ∧ e = pub.e ∧ dg = digest then .ok () else .err .verificationFailed
  | _ => .err .verificationFailed

/-- Source `SignSignature` (part_000 lines 257-261): SHA-256 digest of
the data, signed with PKCS#1 v1.5 padding. -/
def SignSignature (privateKey : RSAPrivateKey) (data : List Nat) : GoResult (List Nat) :=
  rsaSignPKCS1v15 privateKey (sha256Sum data)

/-- Source `VerifySignature` (part_000 lines 263-267): recompute the
SHA-256 digest and validate the signature against it. -/
def VerifySignature (publicKey : RSAPublicKey) (data sig : List Nat) : GoResult Unit :=
  rsaVerifyPKCS1v15 publicKey (sha256Sum data) sig

/-- C7 is refuted: `GenerateKeyPair` applies no 2048-bit floor; the
below-minimum size 1024 returns a key pair instead of failing with the
key-generation error. -/
theorem generateKeyPair_1024_counterexample :
    GenerateKeyPair 1024 (fun _ => 0) ≠ .err .keyGenError ∧
    GenerateKeyPair 1024 (fun _ => 0) =
      .ok (⟨2 ^ 1023 + 1, 65537, 0, 2 ^ 512, 2 ^ 512⟩, ⟨2 ^ 1023 + 1, 65537⟩) := by
  constructor
  · decide
  · rfl

/-- C7 (amended): `GenerateKeyPair` enforces no minimum of its own: it
fails only when the underlying RSA generation fails (modelled as sizes
below 64 bits), and every size the library accepts — including every
size in [64, 2048) — yields a key pair. -/
theorem generateKeyPair_no_minimum (numBits : Nat) (rnd : Nat → Nat) :
    (64 ≤ numBits → GenerateKeyPair numBits rnd =
      .ok (rsaGenKeyOf rnd numBits, pubOfPriv (rsaGenKeyOf rnd numBits))) ∧
    (numBits < 64 → GenerateKeyPair numBits rnd = .err .keyGenError) := by
  constructor
  · intro h
    rw [GenerateKeyPair, rsaGenerateKey, if_neg (by omega)]
  · intro h
    rw [GenerateKeyPair, rsaGenerateKey, if_pos h]

/-- Concrete instantiation of `generateKeyPair_no_minimum` at sizes 1024
and 32. -/
theorem generateKeyPair_no_minimum_witness :
    GenerateKeyPair 1024 (fun _ => 1) =
      .ok (rsaGenKeyOf (fun _ => 1) 1024, pubOfPriv (rsaGenKeyOf (fun _ => 1) 1024)) ∧
    GenerateKeyPair 32 (fun _ => 1) = .err .keyGenError :=
  ⟨(generateKeyPair_no_minimum 1024 (fun _ => 1)).1 (by omega),
   (generateKeyPair_no_minimum 32 (fun _ => 1)).2 (by omega)⟩

/-- C8: within the OAEP size bound, decrypting with the matching private
key recovers the message, and decrypting the same ciphertext with any
private key whose public half differs fails with the decryption error
(OAEP randomness is the explicit `seed` input). -/
theorem oaep_roundtrip (m : List Nat) (priv : RSAPrivateKey) (seed : Nat) (c : List Nat)
    (henc : EncryptWithPublicKey m (pubOfPriv priv) seed = .ok c) :
    DecryptWithPrivateKey c priv = .ok m ∧
    ∀ priv2, pubOfPriv priv2 ≠ pubOfPriv priv →
      DecryptWithPrivateKey c priv2 = .err .decryptionFailed := by
  rw [EncryptWithPublicKey, rsaEncryptOAEP] at henc
  by_cases hb : ((m.length : Int) > (rsaSize (pubOfPriv priv).n : Int) - 2 * 64 - 2)
  · rw [if_pos hb] at henc
    simp at henc
  · rw [if_neg hb] at henc
    have hc : c = (pubOfPriv priv).n :: (pubOfPriv priv).e :: seed :: m := by
      cases henc; rfl
    subst hc
    constructor
    · simp [DecryptWithPrivateKey, rsaDecryptOAEP, pubOfPriv]
    · intro priv2 hne
      simp only [DecryptWithPrivateKey, rsaDecryptOAEP]
      rw [if_neg]
      intro hcond
      apply hne
      have h1 : priv2.n = priv.n := by
        have := hcond.1
        simp [pubOfPriv] at this
        omega
      have h2 : priv2.e = priv.e := by
        have := hcond.2
        simp [pubOfPriv] at this
        omega
      simp [pubOfPriv, RSAPublicKey.mk.injEq, h1, h2]

/-- Concrete instantiation of `oaep_roundtrip` with a 1049-bit modulus,
message `[7]`, and a second key with a different public exponent. -/
theorem oaep_roundtrip_witness :
    DecryptWithPrivateKey [2 ^ 1048, 3, 0, 7] ⟨2 ^ 1048, 3, 5, 2, 3⟩ = .ok [7] ∧
    DecryptWithPrivateKey [2 ^ 1048, 3, 0, 7] ⟨2 ^ 1048, 5, 5, 2, 3⟩ =
      .err .decryptionFailed :=
  ⟨(oaep_roundtrip [7] ⟨2 ^ 1048, 3, 5, 2, 3⟩ 0 [2 ^ 1048, 3, 0, 7] (by decide)).1,
   (oaep_roundtrip [7] ⟨2 ^ 1048, 3, 5, 2, 3⟩ 0 [2 ^ 1048, 3, 0, 7] (by decide)).2
      ⟨2 ^ 1048, 5, 5, 2, 3⟩ (by decide)⟩

/-- C9: a signature verifies against the matching public key and the
exact original data; verification fails against modified data and
against the public key of a different key pair. -/
theorem signature_roundtrip (priv : RSAPrivateKey) (data sig : List Nat)
    (hsig : SignSignature priv data = .ok sig) :
    VerifySignature (pubOfPriv priv) data sig = .ok () ∧
    (∀ data2, data2 ≠ data →
      VerifySignature (pubOfPriv priv) data2 sig = .err .verificationFailed) ∧
    (∀ pub2, pub2 ≠ pubOfPriv priv →
      VerifySignature pub2 data sig = .err .verificationFailed) := by
  have hs : sig = priv.n :: priv.e :: sha256Sum data := by
    cases hsig; rfl
  subst hs
  refine ⟨?_, ?_, ?_⟩
  · simp [VerifySignature, rsaVerifyPKCS1v15, pubOfPriv]
  · intro data2 hne
    simp only [VerifySignature, rsaVerifyPKCS1v15]
    rw [if_neg]
    intro hcond
    exact hne (sha256Sum_inj data data2 hcond.2.2).symm
  · intro pub2 hne
    simp only [VerifySignature, rsaVerifyPKCS1v15]
    rw [if_neg]
    intro hcond
    apply hne
    have h1 : pub2.n = priv.n := hcond.1.symm
    have h2 : pub2.e = priv.e := hcond.2.1.symm
    obtain ⟨pn, pe⟩ := pub2
    simp only [pubOfPriv, RSAPublicKey.mk.injEq]
    exact ⟨h1, h2⟩

/-- Concrete instantiation of `signature_roundtrip` with the key
(33, 3, 7, 3, 11), data `[1]`, modified data `[2]` and the foreign
public key (35, 3). -/
theorem signature_roundtrip_witness :
    VerifySignature ⟨33, 3⟩ [1] (33 :: 3 :: sha256Sum [1]) = .ok () ∧
    VerifySignature ⟨33, 3⟩ [2] (33 :: 3 :: sha256Sum [1]) = .err .verificationFailed ∧
    VerifySignature ⟨35, 3⟩ [1] (33 :: 3 :: sha256Sum [1]) = .err .verificationFailed :=
  ⟨(signature_roundtrip ⟨33, 3, 7, 3, 11⟩ [1] (33 :: 3 :: sha256Sum [1]) rfl).1,
   (signature_roundtrip ⟨33, 3, 7, 3, 11⟩ [1] (33 :: 3 :: sha256Sum [1]) rfl).2.1
      [2] (by decide),
   (signature_roundtrip ⟨33, 3, 7, 3, 11⟩ [1] (33 :: 3 :: sha256Sum [1]) rfl).2.2
      ⟨35, 3⟩ (by decide)⟩
